import Mathlib

/-!
Verification of the book-manager core: the in-memory indexed store
(`BookRepo` in `internal/adapter`) and the catalog service
(`internal/core/service.go`), shallowly embedded in Lean.

Modelling conventions:
* Go maps (`map[string]model.Book`, `map[string]string`) become association
  lists in insertion order; since the code only inserts a key after checking
  its absence, insertion is modelled as appending at the end.  The snapshot
  taken by `List` iterates the map in an unspecified order; the association
  list realizes one admissible iteration order (insertion order).
* `time.Time` values become `Int` instants; `After`/`Before`/`Equal` become
  `<`/`>`/`=` on `Int`.
* Go `*string` / `*int` pointers holding optional scalars become `Option`.
* Go's `(T, error)` returns become the `Res` type below; the adapter's
  `errNotFound`/`errConflict` sentinels and the core's `ErrNotFound` /
  `ErrConflict` are identified, as no claim distinguishes them.
* `uuid.NewString()` and `time.Now()` are effects; they enter the embedding
  as explicit parameters (`newId`, `now`) of `createBook`.
* The enrichment collaborator's reply is a parameter
  `fetch : Option EnrichedBook` (`none` models a lookup failure).
* Defensive slice copies (`append([]string(nil), xs...)`) are value-identity
  in a pure model; `copyBook` reproduces the shape of the Go helper.
-/

namespace BookMgr

/-! ### Association-list model of Go maps -/

/-- Lookup in an association list: first binding wins (Go maps have unique
keys; the code inserts only after an absence check, so first = only). -/
def mapGet {α : Type} : List (String × α) → String → Option α
  | [], _ => none
  | (k, v) :: t, q => if k == q then some v else mapGet t q

/-- Insertion for a key known to be absent (append keeps insertion order). -/
def mapSet {α : Type} (m : List (String × α)) (k : String) (v : α) :
    List (String × α) :=
  m ++ [(k, v)]

/-- Go's `delete(m, k)`: drop every binding of `k`. -/
def mapDel {α : Type} : List (String × α) → String → List (String × α)
  | [], _ => []
  | (k2, v) :: t, k => if k2 == k then mapDel t k else (k2, v) :: mapDel t k

/-- Each key occurs at most once (holds for every map the code builds). -/
def keysDistinct {α : Type} : List (String × α) → Bool
  | [] => true
  | (k, _) :: t => (mapGet t k).isNone && keysDistinct t

/-! ### Data model (`internal/core/model`) -/

/-- `EnrichmentStatus` (`not_requested` / `ok` / `partial`; the last is
spelled `partialStatus` here because its Go name is a Lean keyword). -/
inductive EnrichmentStatus where
  | notRequested
  | ok
  | partialStatus
deriving DecidableEq, Repr

structure EnrichmentMeta where
  Attempted : Bool
  Source : String
  Status : EnrichmentStatus
  LookedUpISBN : String
deriving DecidableEq, Repr

structure Book where
  ID : String
  ISBN : Option String
  Title : String
  Subtitle : Option String
  PublishedYear : Option Int
  PageCount : Option Int
  CoverURL : Option String
  Tags : List String
  Authors : List String
  Enrichment : EnrichmentMeta
  CreatedAt : Int
  UpdatedAt : Int
deriving DecidableEq, Repr

structure PageOf (T : Type) where
  Data : List T
  Page : Int
  PageSize : Int
  Total : Int
deriving DecidableEq, Repr

structure SortKey where
  Field : String
  Desc : Bool
deriving DecidableEq, Repr

/-- `ListQuery` (the Go field `Sort` is spelled `SortBy` here because its Go
name is a Lean keyword). -/
structure ListQuery where
  Q : Option String
  Author : Option String
  Year : Option Int
  Tag : Option String
  SortBy : List SortKey
  Page : Int
  PageSize : Int
deriving DecidableEq, Repr

structure EnrichedBook where
  Title : Option String
  Subtitle : Option String
  PublishedYear : Option Int
  PageCount : Option Int
  CoverURL : Option String
  Authors : List String
deriving DecidableEq, Repr

structure CreateBookInput where
  ISBN : Option String
  Title : Option String
  Subtitle : Option String
  PublishedYear : Option Int
  PageCount : Option Int
  CoverURL : Option String
  Tags : List String
  Authors : List String
  Enrich : Bool
  RequireEnrichment : Bool
deriving DecidableEq, Repr

/-- The domain error taxonomy (`ErrValidation`/`ErrConflict`/`ErrNotFound`/
`ErrUpstream`, with the adapter's sentinels identified with the core's). -/
inductive Err where
  | validation
  | conflict
  | notFound
  | upstream
deriving DecidableEq, Repr

/-- Go's `(T, error)` return shape. -/
inductive Res (α : Type) where
  | ok : α → Res α
  | err : Err → Res α
deriving DecidableEq, Repr

/-! ### String helpers (`strings` package operations used by the code) -/

/-- Does `hay` start with `needle`? (char-level; ASCII-faithful) -/
def startsWithChars (needle hay : List Char) : Bool :=
  match needle, hay with
  | [], _ => true
  | _ :: _, [] => false
  | a :: as, b :: bs => a == b && startsWithChars as bs

/-- `strings.Contains hay needle` on char lists. -/
def containsChars (needle : List Char) : List Char → Bool
  | [] => needle.isEmpty
  | c :: t => startsWithChars needle (c :: t) || containsChars needle t

/-- `strings.Contains hay needle`. -/
def containsStr (hay needle : String) : Bool :=
  containsChars needle.data hay.data

/-- Go's lexicographic `<` on strings (char-level). -/
def charsLt : List Char → List Char → Bool
  | [], [] => false
  | [], _ :: _ => true
  | _ :: _, [] => false
  | a :: as, b :: bs => if a < b then true else if b < a then false else charsLt as bs

/-- `a < b` on strings, as the Go comparison used by `sortBooks`. -/
def strLt (a b : String) : Bool :=
  charsLt a.data b.data

/-- `normalizeISBN`: `strings.ReplaceAll(s, "-", "")` then
`strings.ReplaceAll(s, " ", "")`; deleting all occurrences of the two
single-character patterns is filtering those characters out. -/
def normalizeISBN (s : String) : String :=
  String.mk (s.data.filter (fun c => !(c == '-' || c == ' ')))

/-! ### Book store (`internal/adapter` `BookRepo`) -/

structure BookRepo where
  byID : List (String × Book)
  byISBN : List (String × String)
deriving DecidableEq, Repr

def emptyRepo : BookRepo :=
  { byID := [], byISBN := [] }

/-- `copyBook`: defensive copies of the `Tags`/`Authors` slices (value
identity in a pure model). -/
def copyBook (b : Book) : Book :=
  { b with Tags := b.Tags, Authors := b.Authors }

/-- `BookRepo.Create` (the Go local `key := normalizeISBN(*b.ISBN)` is
inlined). -/
def repoCreate (r : BookRepo) (b : Book) : Res (Book × BookRepo) :=
  if b.ID == "" then .err .conflict
  else if (mapGet r.byID b.ID).isSome then .err .conflict
  else
    match b.ISBN with
    | some s =>
      if normalizeISBN s != "" then
        if (mapGet r.byISBN (normalizeISBN s)).isSome then .err .conflict
        else .ok (copyBook b,
          { byID := mapSet r.byID b.ID (copyBook b),
            byISBN := mapSet r.byISBN (normalizeISBN s) b.ID })
      else .ok (copyBook b, { r with byID := mapSet r.byID b.ID (copyBook b) })
    | none => .ok (copyBook b, { r with byID := mapSet r.byID b.ID (copyBook b) })

/-- `BookRepo.GetByID`. -/
def getByID (r : BookRepo) (id : String) : Res Book :=
  match mapGet r.byID id with
  | none => .err .notFound
  | some b => .ok (copyBook b)

/-- `BookRepo.GetByISBN`. -/
def getByISBN (r : BookRepo) (isbn : String) : Res Book :=
  let key := normalizeISBN isbn
  match mapGet r.byISBN key with
  | none => .err .notFound
  | some id =>
    match mapGet r.byID id with
    | none => .err .notFound
    | some b => .ok (copyBook b)

/-- `BookRepo.Delete`. -/
def repoDelete (r : BookRepo) (id : String) : Res BookRepo :=
  match mapGet r.byID id with
  | none => .err .notFound
  | some b =>
    let newISBN :=
      match b.ISBN with
      | some s => mapDel r.byISBN (normalizeISBN s)
      | none => r.byISBN
    .ok { byID := mapDel r.byID id, byISBN := newISBN }

/-! ### Filtering (`matchFilters`) -/

/-- `matchFilters`: the Go function is a sequence of early `return false`
guards, one per provided filter; that control flow is the conjunction of the
four guards below. -/
def matchFilters (b : Book) (q : ListQuery) : Bool :=
  (match q.Q with
   | none => true
   | some qs =>
     let needle := qs.toLower
     if containsStr b.Title.toLower needle then true
     else
       let sub := match b.Subtitle with
         | none => ""
         | some s => s.toLower
       containsStr sub needle) &&
  (match q.Author with
   | none => true
   | some a =>
     let needle := a.toLower
     b.Authors.any (fun x => containsStr x.toLower needle)) &&
  (match q.Tag with
   | none => true
   | some t => b.Tags.any (fun x => x == t)) &&
  (match q.Year with
   | none => true
   | some y =>
     match b.PublishedYear with
     | none => false
     | some py => py == y)

/-! ### Sorting (`sortBooks`) -/

/-- The comparator of the default branch:
`bs[i].CreatedAt.After(bs[j].CreatedAt)`. -/
def defaultLess (a b : Book) : Bool :=
  decide (b.CreatedAt < a.CreatedAt)

/-- The multi-key comparator of `sort.SliceStable`: keys are tried
left-to-right, an unrecognized field name falls through to the next key, and
the final tie-break is by `ID`. -/
def keyedLess (keys : List SortKey) (a b : Book) : Bool :=
  match keys with
  | [] => strLt a.ID b.ID
  | k :: rest =>
    match k.Field with
    | "title" =>
      if a.Title != b.Title then
        if k.Desc then strLt b.Title a.Title else strLt a.Title b.Title
      else keyedLess rest a b
    | "published_year" =>
      match a.PublishedYear, b.PublishedYear with
      | none, none => keyedLess rest a b
      | none, some _ => !k.Desc
      | some _, none => k.Desc
      | some ai, some bi =>
        if ai != bi then
          if k.Desc then decide (bi < ai) else decide (ai < bi)
        else keyedLess rest a b
    | "created_at" =>
      if a.CreatedAt != b.CreatedAt then
        if k.Desc then decide (b.CreatedAt < a.CreatedAt)
        else decide (a.CreatedAt < b.CreatedAt)
      else keyedLess rest a b
    | "updated_at" =>
      if a.UpdatedAt != b.UpdatedAt then
        if k.Desc then decide (b.UpdatedAt < a.UpdatedAt)
        else decide (a.UpdatedAt < b.UpdatedAt)
      else keyedLess rest a b
    | _ => keyedLess rest a b

/-- Stable insertion step of the sort. -/
def insertSorted (less : Book → Book → Bool) (a : Book) :
    List Book → List Book
  | [] => [a]
  | b :: t => if less a b then a :: b :: t else b :: insertSorted less a t

/-- Stable insertion sort by a boolean comparator: elements are taken left
to right and each lands after every already-placed element it is not
strictly `less` than, so ties keep their input order.  `sort.SliceStable`
is a stable sort driven by `less`; `sort.Slice` (the default branch) is
unstable, so its tie order is unspecified — the stable sort realizes one
admissible outcome, with ties kept in snapshot order. -/
def isortBy (less : Book → Book → Bool) (l : List Book) : List Book :=
  l.foldl (fun acc a => insertSorted less a acc) []

/-- `sortBooks`. -/
def sortBooks (keys : List SortKey) (bs : List Book) : List Book :=
  if keys.isEmpty then isortBy defaultLess bs
  else isortBy (keyedLess keys) bs

/-! ### Listing (`BookRepo.List`) -/

/-- The snapshot phase: copy every stored record (map iteration modelled by
insertion order). -/
def snapshotBooks (r : BookRepo) : List Book :=
  r.byID.map (fun p => copyBook p.2)

/-- The filter phase of `List` (pre-pagination). -/
def filteredBooks (r : BookRepo) (q : ListQuery) : List Book :=
  (snapshotBooks r).filter (fun b => matchFilters b q)

/-- The page clamp of `List`: a page number below 1 becomes 1. -/
def clampPage (p : Int) : Int :=
  if p < 1 then 1 else p

/-- The size clamp of `List`: a page size below 1 becomes 20. -/
def clampSize (z : Int) : Int :=
  if z < 1 then 20 else z

/-- Two's-complement wrap of a mathematical integer into a signed 64-bit
value: the result of Go `int` arithmetic when the true value overflows.
The constants are 2^63 and 2^64. -/
def wrap64 (x : Int) : Int :=
  (x + 9223372036854775808) % 18446744073709551616 - 9223372036854775808

/-- `BookRepo.List`: snapshot, filter, sort, paginate.  The pagination
offsets `start := (page-1)*size` and `end := start + size` are Go `int`
(64-bit) products/sums, so they wrap on overflow (`wrap64`); when the
wrapped `start` is negative the Go program does not return at all — it
panics in `out[start:end]` — which `listSliceOk` below makes explicit. -/
def repoList (r : BookRepo) (q : ListQuery) : PageOf Book :=
  let out := filteredBooks r q
  let sorted := sortBooks q.SortBy out
  let page := clampPage q.Page
  let size := clampSize q.PageSize
  let total : Int := sorted.length
  let start0 := wrap64 ((page - 1) * size)
  let start := if start0 > total then total else start0
  let stop0 := wrap64 (start + size)
  let stop := if stop0 > total then total else stop0
  let paged := (sorted.drop start.toNat).take (stop - start).toNat
  { Data := paged, Page := page, PageSize := size, Total := total }

/-- The runtime bounds check of `List`'s final slice step: Go's
`make([]Book, end-start)` and `out[start:end]` panic unless
`end - start ≥ 0`, `0 ≤ start`, and `end ≤ len(out)`.  The last holds by
the clamp, so the residual conditions are `0 ≤ start ∧ start ≤ end`; when
this is `false` the Go call panics and `repoList`'s value is not
observable. -/
def listSliceOk (r : BookRepo) (q : ListQuery) : Bool :=
  let out := filteredBooks r q
  let sorted := sortBooks q.SortBy out
  let total : Int := sorted.length
  let start0 := wrap64 ((clampPage q.Page - 1) * clampSize q.PageSize)
  let start := if start0 > total then total else start0
  let stop0 := wrap64 (start + clampSize q.PageSize)
  let stop := if stop0 > total then total else stop0
  decide (0 ≤ start) && decide (start ≤ stop)

/-! ### Catalog service (`internal/core/service.go`) -/

/-- `valueOr`. -/
def valueOr (p : Option String) (def_ : String) : String :=
  match p with
  | none => def_
  | some s => s

/-- `merge`: fill only fields the caller left empty.  The Go function is
six sequential in-place guarded assignments; each guard reads only the one
field its own assignment writes, so the steps are independent and the
sequence is this simultaneous record update with the guards and right-hand
sides taken verbatim from the source. -/
def merge (dst : Book) (e : EnrichedBook) : Book :=
  { dst with
    Title :=
      if dst.Title == "" then
        match e.Title with
        | some t => t
        | none => dst.Title
      else dst.Title,
    Subtitle :=
      if dst.Subtitle.isNone && e.Subtitle.isSome then e.Subtitle
      else dst.Subtitle,
    PublishedYear :=
      if dst.PublishedYear.isNone && e.PublishedYear.isSome then
        e.PublishedYear
      else dst.PublishedYear,
    PageCount :=
      if dst.PageCount.isNone && e.PageCount.isSome then e.PageCount
      else dst.PageCount,
    CoverURL :=
      if dst.CoverURL.isNone && e.CoverURL.isSome then e.CoverURL
      else dst.CoverURL,
    Authors :=
      if dst.Authors.isEmpty && !e.Authors.isEmpty then e.Authors
      else dst.Authors }

/-- `in.Title == nil || *in.Title == ""`. -/
def titleMissing (t : Option String) : Bool :=
  match t with
  | none => true
  | some s => s == ""

/-- `in.PageCount != nil && *in.PageCount < 1`. -/
def pageCountInvalid (pc : Option Int) : Bool :=
  match pc with
  | none => false
  | some v => decide (v < 1)

/-- `in.PublishedYear != nil && (y < 1450 || y > 3000)`. -/
def yearInvalid (y : Option Int) : Bool :=
  match y with
  | none => false
  | some v => decide (v < 1450) || decide (v > 3000)

/-- The record constructed by `Service.CreateBook` before enrichment:
fresh identifier, title defaulting to the empty string, defensively copied
slices, enrichment metadata initialized to not-requested, both timestamps
set to the current instant. -/
def buildBook (newId : String) (now : Int) (input : CreateBookInput) : Book :=
  { ID := newId
    ISBN := input.ISBN
    Title := valueOr input.Title ""
    Subtitle := input.Subtitle
    PublishedYear := input.PublishedYear
    PageCount := input.PageCount
    CoverURL := input.CoverURL
    Tags := input.Tags
    Authors := input.Authors
    Enrichment :=
      { Attempted := false, Source := "", Status := .notRequested,
        LookedUpISBN := "" }
    CreatedAt := now
    UpdatedAt := now }

/-- The optional-enrichment block of `Service.CreateBook` (the body of
`if in.Enrich && in.ISBN != nil && *in.ISBN != ""`): mark the attempt, call
the lookup, and on failure either abort with `Upstream`
(`RequireEnrichment`) or degrade to `partial`; on success merge and mark
`ok`. -/
def markAttempted (b0 : Book) (s : String) : Book :=
  { b0 with
    Enrichment :=
      { Attempted := true, Source := "openlibrary",
        Status := b0.Enrichment.Status, LookedUpISBN := s } }

def setStatus (b : Book) (st : EnrichmentStatus) : Book :=
  { b with Enrichment := { b.Enrichment with Status := st } }

def enrichPhase (input : CreateBookInput) (fetch : Option EnrichedBook)
    (b0 : Book) : Res Book :=
  match input.ISBN with
  | some s =>
    if input.Enrich && s != "" then
      match fetch with
      | none =>
        if input.RequireEnrichment then .err .upstream
        else .ok (setStatus (markAttempted b0 s) .partialStatus)
      | some res => .ok (setStatus (merge (markAttempted b0 s) res) .ok)
    else .ok b0
  | none => .ok b0

/-- The duplicate-ISBN pre-check of `Service.CreateBook`
(`if b.ISBN != nil && *b.ISBN != ""` followed by a `GetByISBN` probe). -/
def isbnPrecheckConflict (repo : BookRepo) (b : Book) : Bool :=
  match b.ISBN with
  | some s =>
    if s != "" then
      match getByISBN repo s with
      | .ok _ => true
      | .err _ => false
    else false
  | none => false

/-- `Service.CreateBook`.  `newId` stands for `uuid.NewString()`, `now` for
`time.Now()`, and `fetch` for the reply of `Enrich.FetchByISBN` (`none` is a
lookup failure).  Returns the call's result together with the store left
behind (the store is threaded explicitly in the pure model). -/
def createBook (newId : String) (now : Int) (fetch : Option EnrichedBook)
    (repo : BookRepo) (input : CreateBookInput) : Res Book × BookRepo :=
  if (!input.Enrich || input.ISBN.isNone) && titleMissing input.Title then
    (.err .validation, repo)
  else if pageCountInvalid input.PageCount then (.err .validation, repo)
  else if yearInvalid input.PublishedYear then (.err .validation, repo)
  else
    match enrichPhase input fetch (buildBook newId now input) with
    | .err e => (.err e, repo)
    | .ok b =>
      if isbnPrecheckConflict repo b then (.err .conflict, repo)
      else
        match repoCreate repo b with
        | .err e => (.err e, repo)
        | .ok (created, r2) => (.ok created, r2)

/-- `Service.ListBooks`: passthrough. -/
def listBooks (r : BookRepo) (q : ListQuery) : PageOf Book :=
  repoList r q

/-- `Service.GetBook`: passthrough with errors normalized to `NotFound`. -/
def getBook (r : BookRepo) (id : String) : Res Book :=
  match getByID r id with
  | .ok b => .ok b
  | .err _ => .err .notFound

/-- `Service.DeleteBook`: passthrough with errors normalized to `NotFound`. -/
def deleteBook (r : BookRepo) (id : String) : Res BookRepo :=
  match repoDelete r id with
  | .ok r2 => .ok r2
  | .err _ => .err .notFound

/-! ### Spec-side filter predicates (claim C3 wording) -/

/-- Spec-side: "the free-text query matches case-insensitively as a
substring of title OR subtitle (absent subtitle treated as empty string)". -/
def specFreeTextMatch (q : ListQuery) (b : Book) : Bool :=
  match q.Q with
  | none => true
  | some n =>
    containsStr b.Title.toLower n.toLower ||
    containsStr (match b.Subtitle with | none => "" | some s => s.toLower) n.toLower

/-- Spec-side: "the author filter matches case-insensitively as a substring
of any author name". -/
def specAuthorMatch (q : ListQuery) (b : Book) : Bool :=
  match q.Author with
  | none => true
  | some a => b.Authors.any (fun x => containsStr x.toLower a.toLower)

/-- Spec-side: "the tag filter matches by exact string equality against any
tag". -/
def specTagMatch (q : ListQuery) (b : Book) : Bool :=
  match q.Tag with
  | none => true
  | some t => b.Tags.any (fun x => x == t)

/-- Spec-side: "the year filter matches by exact equality against published
year, and a record with an absent published year never matches". -/
def specYearMatch (q : ListQuery) (b : Book) : Bool :=
  match q.Year with
  | none => true
  | some y =>
    match b.PublishedYear with
    | none => false
    | some py => py == y

/-! ### Helper lemmas: maps -/

theorem copyBook_eq (b : Book) : copyBook b = b := rfl

theorem mapGet_append {α : Type} (m l : List (String × α)) (q : String) :
    mapGet (m ++ l) q =
      match mapGet m q with
      | some w => some w
      | none => mapGet l q := by
  induction m with
  | nil => simp [mapGet]
  | cons p t ih =>
    obtain ⟨k, v⟩ := p
    cases hk : (k == q) <;> simp [mapGet, hk, ih]

theorem mapGet_del {α : Type} (m : List (String × α)) (k q : String) :
    mapGet (mapDel m k) q = if q == k then none else mapGet m q := by
  induction m with
  | nil => cases hqk : (q == k) <;> simp [mapDel, mapGet, hqk]
  | cons p t ih =>
    obtain ⟨k2, v⟩ := p
    by_cases h2 : k2 = k
    · subst h2
      by_cases hq : q = k2
      · subst hq
        simp [mapDel, ih]
      · simp [mapDel, mapGet, ih, hq, Ne.symm hq]
    · by_cases hq : k2 = q
      · subst hq
        simp [mapDel, mapGet, h2]
      · simp [mapDel, mapGet, h2, hq, ih]

/-! ### Helper lemmas: sorting -/

/-- The ordering the default `List` branch establishes: non-strictly
descending creation instants. -/
def createdDesc (a b : Book) : Prop :=
  b.CreatedAt ≤ a.CreatedAt

theorem mem_insertSorted (less : Book → Book → Bool) (a x : Book)
    (l : List Book) :
    x ∈ insertSorted less a l ↔ x = a ∨ x ∈ l := by
  induction l with
  | nil => simp [insertSorted]
  | cons b t ih =>
    cases h : less a b
    · simp only [insertSorted, h, Bool.false_eq_true, if_false, List.mem_cons,
        ih]
      tauto
    · simp [insertSorted, h]

theorem insertSorted_pairwise_created (a : Book) (l : List Book)
    (h : l.Pairwise createdDesc) :
    (insertSorted defaultLess a l).Pairwise createdDesc := by
  induction l with
  | nil => simp [insertSorted]
  | cons b t ih =>
    rcases List.pairwise_cons.mp h with ⟨hb, ht⟩
    cases hl : defaultLess a b
    · have hab : createdDesc b a := by
        simp only [defaultLess, decide_eq_false_iff_not, not_lt] at hl
        exact hl
      simp only [insertSorted, hl, Bool.false_eq_true, if_false]
      refine List.pairwise_cons.mpr ⟨?_, ih ht⟩
      intro x hx
      rcases (mem_insertSorted defaultLess a x t).mp hx with rfl | hx
      · exact hab
      · exact hb x hx
    · have hab : createdDesc a b := by
        simp only [defaultLess, decide_eq_true_eq] at hl
        exact le_of_lt hl
      simp only [insertSorted, hl, if_true]
      refine List.pairwise_cons.mpr ⟨?_, h⟩
      intro x hx
      rcases List.mem_cons.mp hx with rfl | hx
      · exact hab
      · exact le_trans (hb x hx) hab

theorem foldl_insertSorted_pairwise (l acc : List Book)
    (h : acc.Pairwise createdDesc) :
    (l.foldl (fun acc a => insertSorted defaultLess a acc) acc).Pairwise
      createdDesc := by
  induction l generalizing acc with
  | nil => simpa using h
  | cons a t ih => exact ih _ (insertSorted_pairwise_created a acc h)

theorem isortBy_pairwise_created (l : List Book) :
    (isortBy defaultLess l).Pairwise createdDesc :=
  foldl_insertSorted_pairwise l [] (by simp)

theorem insertSorted_length (less : Book → Book → Bool) (a : Book)
    (l : List Book) :
    (insertSorted less a l).length = l.length + 1 := by
  induction l with
  | nil => rfl
  | cons b t ih => cases h : less a b <;> simp [insertSorted, h, ih]

theorem foldl_insertSorted_length (less : Book → Book → Bool)
    (l acc : List Book) :
    (l.foldl (fun acc a => insertSorted less a acc) acc).length =
      acc.length + l.length := by
  induction l generalizing acc with
  | nil => simp
  | cons a t ih =>
    simp only [List.foldl_cons, ih, insertSorted_length, List.length_cons]
    omega

theorem isortBy_length (less : Book → Book → Bool) (l : List Book) :
    (isortBy less l).length = l.length := by
  simpa [isortBy] using foldl_insertSorted_length less l []

theorem sortBooks_length (keys : List SortKey) (l : List Book) :
    (sortBooks keys l).length = l.length := by
  unfold sortBooks
  cases keys <;> simp [isortBy_length]

/-! ### Helper lemmas: filters -/

theorem if_then_true (c x : Bool) : (if c then true else x) = (c || x) := by
  cases c <;> simp

/-- `matchFilters` is the conjunction of the four spec-side predicates. -/
theorem matchFilters_eq (b : Book) (q : ListQuery) :
    matchFilters b q =
      (specFreeTextMatch q b && specAuthorMatch q b &&
        specTagMatch q b && specYearMatch q b) := by
  unfold matchFilters specFreeTextMatch specAuthorMatch specTagMatch
    specYearMatch
  simp only [if_then_true, Bool.and_assoc]

/-! ### Helper lemmas: service -/

/-- The only error `BookRepo.Create` raises is `Conflict`. -/
theorem repoCreate_err (r : BookRepo) (b : Book) (e : Err)
    (h : repoCreate r b = .err e) : e = .conflict := by
  unfold repoCreate at h
  by_cases h1 : (b.ID == "") = true
  · rw [if_pos h1] at h
    injection h with h2
    exact h2.symm
  · rw [if_neg h1] at h
    by_cases h2 : ((mapGet r.byID b.ID).isSome = true)
    · rw [if_pos h2] at h
      injection h with h3
      exact h3.symm
    · rw [if_neg h2] at h
      rcases hISBN : b.ISBN with _ | s <;> simp only [hISBN] at h
      · exact Res.noConfusion h
      · by_cases h3 : ((normalizeISBN s != "") = true)
        · rw [if_pos h3] at h
          by_cases h4 : ((mapGet r.byISBN (normalizeISBN s)).isSome = true)
          · rw [if_pos h4] at h
            injection h with h5
            exact h5.symm
          · rw [if_neg h4] at h
            exact Res.noConfusion h
        · rw [if_neg h3] at h
          exact Res.noConfusion h

/-- The only error the enrichment block raises is `Upstream`. -/
theorem enrichPhase_err (input : CreateBookInput)
    (fetch : Option EnrichedBook) (b0 : Book) (e : Err)
    (h : enrichPhase input fetch b0 = .err e) : e = .upstream := by
  unfold enrichPhase at h
  rcases hISBN : input.ISBN with _ | s <;> simp only [hISBN] at h
  · exact Res.noConfusion h
  · by_cases h1 : ((input.Enrich && s != "") = true)
    · rw [if_pos h1] at h
      rcases fetch with _ | res
      · by_cases h2 : (input.RequireEnrichment = true)
        · rw [if_pos h2] at h
          injection h with h3
          exact h3.symm
        · rw [if_neg h2] at h
          exact Res.noConfusion h
      · exact Res.noConfusion h
    · rw [if_neg h1] at h
      exact Res.noConfusion h

/-- The disjunction of the three validation guards of `Service.CreateBook`
(claim C5's failure condition). -/
def validationViolation (input : CreateBookInput) : Bool :=
  ((!input.Enrich || input.ISBN.isNone) && titleMissing input.Title) ||
  pageCountInvalid input.PageCount || yearInvalid input.PublishedYear

/-- `BookRepo.Create` succeeds on a fresh non-empty identifier whose
normalized ISBN key (when non-empty) is unindexed, and appends the record
to the identifier map. -/
theorem repoCreate_ok_of (r : BookRepo) (b : Book)
    (hid : (b.ID == "") = false) (hfresh : mapGet r.byID b.ID = none)
    (hisbn : ∀ s, b.ISBN = some s → normalizeISBN s ≠ "" →
      mapGet r.byISBN (normalizeISBN s) = none) :
    repoCreate r b = .ok (b,
      { byID := mapSet r.byID b.ID b,
        byISBN :=
          match b.ISBN with
          | some s =>
            if normalizeISBN s != "" then
              mapSet r.byISBN (normalizeISBN s) b.ID
            else r.byISBN
          | none => r.byISBN }) := by
  unfold repoCreate
  rw [if_neg (by simp [hid]), if_neg (by simp [hfresh])]
  rcases hI : b.ISBN with _ | s
  · simp only [hI]
    rfl
  · simp only [hI]
    by_cases hk : ((normalizeISBN s != "") = true)
    · rw [if_pos hk, if_pos hk,
        if_neg (by simp [hisbn s hI (by simpa using hk)])]
      rfl
    · rw [if_neg hk, if_neg hk]
      rfl

/-- With a validation violation, `CreateBook` fails with `Validation` and
leaves the store untouched. -/
theorem createBook_guarded (newId : String) (now : Int)
    (fetch : Option EnrichedBook) (repo : BookRepo) (input : CreateBookInput)
    (h : validationViolation input = true) :
    createBook newId now fetch repo input = (.err .validation, repo) := by
  unfold createBook
  unfold validationViolation at h
  by_cases h1 :
      (((!input.Enrich || input.ISBN.isNone) && titleMissing input.Title) =
        true)
  · rw [if_pos h1]
  · rw [if_neg h1]
    by_cases h2 : (pageCountInvalid input.PageCount = true)
    · rw [if_pos h2]
    · rw [if_neg h2]
      have h3 : yearInvalid input.PublishedYear = true := by
        rw [Bool.not_eq_true] at h1 h2
        simpa [h1, h2] using h
      rw [if_pos h3]

/-- Without a validation violation, `CreateBook` never fails with
`Validation` (the remaining paths produce only `Upstream`, `Conflict`, or
success). -/
theorem createBook_not_validation (newId : String) (now : Int)
    (fetch : Option EnrichedBook) (repo : BookRepo) (input : CreateBookInput)
    (h : validationViolation input = false) :
    (createBook newId now fetch repo input).1 ≠ .err .validation := by
  unfold validationViolation at h
  have h12 := (Bool.or_eq_false_iff.mp h).1
  have h3 := (Bool.or_eq_false_iff.mp h).2
  have h1 := (Bool.or_eq_false_iff.mp h12).1
  have h2 := (Bool.or_eq_false_iff.mp h12).2
  unfold createBook
  rw [if_neg (by simp [h1]), if_neg (by simp [h2]), if_neg (by simp [h3])]
  rcases hep : enrichPhase input fetch (buildBook newId now input) with b | e
  · simp only [hep]
    by_cases hpre : (isbnPrecheckConflict repo b = true)
    · simp [hpre]
    · rw [Bool.not_eq_true] at hpre
      rcases hrc : repoCreate repo b with ⟨created, r2⟩ | e2
      · simp [hpre, hrc]
      · have he2 := repoCreate_err repo b e2 hrc
        subst he2
        simp [hpre, hrc]
  · have he := enrichPhase_err input fetch _ e hep
    subst he
    simp

/-- Anatomy of a successful `BookRepo.Create`: the returned record is the
argument, the identifier was non-empty and fresh, the record is appended to
the identifier map, and the ISBN index either gains the non-empty
normalized key (previously unindexed) or is untouched (no ISBN, or a key
normalizing to the empty string). -/
theorem repoCreate_ok_cases (r : BookRepo) (b c : Book) (r2 : BookRepo)
    (h : repoCreate r b = .ok (c, r2)) :
    c = b ∧ (b.ID == "") = false ∧ mapGet r.byID b.ID = none ∧
    r2.byID = mapSet r.byID b.ID b ∧
    ((∃ s, b.ISBN = some s ∧ normalizeISBN s ≠ "" ∧
        mapGet r.byISBN (normalizeISBN s) = none ∧
        r2.byISBN = mapSet r.byISBN (normalizeISBN s) b.ID) ∨
      (r2.byISBN = r.byISBN ∧
        (b.ISBN = none ∨ ∃ s, b.ISBN = some s ∧ normalizeISBN s = ""))) := by
  unfold repoCreate at h
  by_cases h1 : ((b.ID == "") = true)
  · rw [if_pos h1] at h
    exact Res.noConfusion h
  · rw [if_neg h1] at h
    by_cases h2 : ((mapGet r.byID b.ID).isSome = true)
    · rw [if_pos h2] at h
      exact Res.noConfusion h
    · rw [if_neg h2] at h
      have h2n : mapGet r.byID b.ID = none := by
        cases hm : mapGet r.byID b.ID
        · rfl
        · rw [hm] at h2
          simp at h2
      have h1f : (b.ID == "") = false := by
        cases hb : (b.ID == "")
        · rfl
        · exact absurd hb h1
      rcases hI : b.ISBN with _ | s
      · simp only [hI] at h
        injection h with hp
        injection hp with hc hr
        subst hc
        subst hr
        exact ⟨copyBook_eq b, h1f, h2n, rfl, Or.inr ⟨rfl, Or.inl rfl⟩⟩
      · simp only [hI] at h
        by_cases h3 : ((normalizeISBN s != "") = true)
        · rw [if_pos h3] at h
          by_cases h4 : ((mapGet r.byISBN (normalizeISBN s)).isSome = true)
          · rw [if_pos h4] at h
            exact Res.noConfusion h
          · rw [if_neg h4] at h
            have h4n : mapGet r.byISBN (normalizeISBN s) = none := by
              cases hm : mapGet r.byISBN (normalizeISBN s)
              · rfl
              · rw [hm] at h4
                simp at h4
            injection h with hp
            injection hp with hc hr
            subst hc
            subst hr
            exact ⟨copyBook_eq b, h1f, h2n, rfl,
              Or.inl ⟨s, rfl, by simpa using h3, h4n, rfl⟩⟩
        · rw [if_neg h3] at h
          injection h with hp
          injection hp with hc hr
          subst hc
          subst hr
          have h3e : normalizeISBN s = "" := by
            by_contra hne
            exact h3 (by simpa using hne)
          exact ⟨copyBook_eq b, h1f, h2n, rfl,
            Or.inr ⟨rfl, Or.inr ⟨s, rfl, h3e⟩⟩⟩

/-! ### Concrete fixtures for witnesses and counterexamples -/

/-- A book literal with only the fields a given scenario cares about. -/
def mkBook (id : String) (isbn : Option String) (created : Int) : Book :=
  { ID := id, ISBN := isbn, Title := "t", Subtitle := none,
    PublishedYear := none, PageCount := none, CoverURL := none,
    Tags := [], Authors := [],
    Enrichment :=
      { Attempted := false, Source := "", Status := .notRequested,
        LookedUpISBN := "" },
    CreatedAt := created, UpdatedAt := created }

/-- Two books sharing a creation instant, inserted `b2` before `b1`. -/
def bTie2 : Book := mkBook "b2" none 5

def bTie1 : Book := mkBook "b1" none 5

def rTieMid : BookRepo := { byID := [("b2", bTie2)], byISBN := [] }

def rTie : BookRepo := { byID := [("b2", bTie2), ("b1", bTie1)], byISBN := [] }

/-- A query with no filters and no sort keys. -/
def qDefault : ListQuery :=
  { Q := none, Author := none, Year := none, Tag := none, SortBy := [],
    Page := 1, PageSize := 10 }

/-- A query whose page offset lies past the end of the result set. -/
def qPastEnd : ListQuery :=
  { Q := none, Author := none, Year := none, Tag := none, SortBy := [],
    Page := 2, PageSize := 5 }

/-- The order claimed for the default listing: creation timestamp
descending, ties broken by identifier ascending. -/
def claimedDefaultOrder (l : List Book) : Prop :=
  l.Pairwise (fun a b =>
    b.CreatedAt < a.CreatedAt ∨
      (a.CreatedAt = b.CreatedAt ∧ strLt a.ID b.ID = true))

/-! ### Claim theorems: listing -/

/-- Claim C3: a stored record appears in the pre-pagination filtered result
iff it independently satisfies every provided filter predicate (logical
AND): free-text query case-insensitively as a substring of title or
subtitle (absent subtitle = empty string), author case-insensitively as a
substring of any author name, tag by exact equality against any tag, year
by exact equality against the published year with an absent year never
matching. -/
theorem filter_conjunction_iff (r : BookRepo) (q : ListQuery) (b : Book) :
    b ∈ filteredBooks r q ↔
      b ∈ snapshotBooks r ∧
        (specFreeTextMatch q b && specAuthorMatch q b &&
          specTagMatch q b && specYearMatch q b) = true := by
  unfold filteredBooks
  rw [List.mem_filter, matchFilters_eq]

/-- `wrap64` is the identity on values already in 64-bit range (here: the
non-negative half, which is all the pagination proof needs). -/
theorem wrap64_eq_of_lt (x : Int) (h0 : 0 ≤ x)
    (h1 : x < 9223372036854775808) : wrap64 x = x := by
  unfold wrap64
  have hm : (x + 9223372036854775808) % 18446744073709551616 =
      x + 9223372036854775808 :=
    Int.emod_eq_of_lt (by omega) (by omega)
  omega

/-- A query whose clamped offset product overflows int64 and wraps to 0:
`(2^62 + 1 - 1) * 4 = 2^64 ≡ 0`. -/
def qHuge : ListQuery :=
  { Q := none, Author := none, Year := none, Tag := none, SortBy := [],
    Page := 4611686018427387905, PageSize := 4 }

/-- A query whose clamped offset product wraps to a negative value:
`(2^62 - 1) * 4 = 2^64 - 4 ≡ -4`, so Go panics on `out[-4:0]`. -/
def qPanic : ListQuery :=
  { Q := none, Author := none, Year := none, Tag := none, SortBy := [],
    Page := 4611686018427387904, PageSize := 4 }

/-- Claim C4 (amended): for every `ListQuery` whose pagination arithmetic
stays inside a signed 64-bit int — the clamped `(page-1)*pageSize` below
2^63, and `total + pageSize` below 2^63 — `List` clamps a page number
below 1 to 1 and a page size below 1 to 20, reports the
filtered-but-unpaged count as `Total`, passes the slice bounds check (no
panic), and for any page whose offset reaches the total it returns empty
`Data` while `Total` still reports the true filtered count.  Outside that
range the Go `int` arithmetic wraps and the claim fails (see the
counterexample). -/
theorem pagination_clamps_and_boundary (r : BookRepo) (q : ListQuery)
    (hmul : (clampPage q.Page - 1) * clampSize q.PageSize <
      9223372036854775808)
    (htot : ((filteredBooks r q).length : Int) + clampSize q.PageSize <
      9223372036854775808) :
    (repoList r q).Page = (if q.Page < 1 then 1 else q.Page) ∧
    (repoList r q).PageSize = (if q.PageSize < 1 then 20 else q.PageSize) ∧
    (repoList r q).Total = ((filteredBooks r q).length : Int) ∧
    listSliceOk r q = true ∧
    (((repoList r q).Page - 1) * (repoList r q).PageSize ≥
        (repoList r q).Total →
      (repoList r q).Data = []) := by
  have hlen : ((sortBooks q.SortBy (filteredBooks r q)).length : Int) =
      ((filteredBooks r q).length : Int) := by
    exact_mod_cast congrArg Nat.cast (sortBooks_length q.SortBy _)
  dsimp only [repoList, listSliceOk]
  set P : Int := clampPage q.Page with hP
  set Z : Int := clampSize q.PageSize with hZ
  set T : Int := ((sortBooks q.SortBy (filteredBooks r q)).length : Int)
    with hT
  have hp1 : 1 ≤ P := by
    rw [hP]
    unfold clampPage
    split_ifs <;> omega
  have hz1 : 1 ≤ Z := by
    rw [hZ]
    unfold clampSize
    split_ifs <;> omega
  have hT0 : 0 ≤ T := by
    rw [hT]
    exact_mod_cast Int.ofNat_nonneg _
  have hprod0 : 0 ≤ (P - 1) * Z := mul_nonneg (by omega) (by omega)
  have hw : wrap64 ((P - 1) * Z) = (P - 1) * Z :=
    wrap64_eq_of_lt _ hprod0 hmul
  rw [hw]
  set S : Int := (if (P - 1) * Z > T then T else (P - 1) * Z) with hS
  have hS0 : 0 ≤ S := by
    rw [hS]
    split_ifs <;> omega
  have hST : S ≤ T := by
    rw [hS]
    split_ifs <;> omega
  have hw2 : wrap64 (S + Z) = S + Z := by
    apply wrap64_eq_of_lt
    · omega
    · omega
  rw [hw2]
  refine ⟨rfl, rfl, hlen, ?_, ?_⟩
  · have hstop : S ≤ (if S + Z > T then T else S + Z) := by
      split_ifs <;> omega
    simp [hS0, hstop]
  · intro h
    have hSeq : S = T := by
      rw [hS]
      split_ifs <;> omega
    rw [hSeq]
    have hstop2 : (if T + Z > T then T else T + Z) = T := by
      split_ifs <;> omega
    rw [hstop2]
    simp

/-- Witness for C4 at a concrete store and an out-of-range (but
non-overflowing) page. -/
theorem pagination_clamps_and_boundary_witness :
    (repoList rTie qPastEnd).Data = [] ∧
    (repoList rTie qPastEnd).Total = 2 ∧
    listSliceOk rTie qPastEnd = true :=
  ⟨(pagination_clamps_and_boundary rTie qPastEnd (by decide)
      (by decide)).2.2.2.2 (by decide),
    by decide, by decide⟩

/-- Counterexample to C4 as stated: with `Page = 2^62 + 1, PageSize = 4`
the Go offset `(page-1)*size` wraps to 0 and `List` returns a non-empty
first page even though the true offset is far past the total; and with
`Page = 2^62, PageSize = 4` the offset wraps to -4 and the slice bounds
check fails, so the program panics instead of returning an empty page. -/
theorem pagination_overflow_counterexample :
    ((repoList rTie qHuge).Page - 1) * (repoList rTie qHuge).PageSize ≥
      (repoList rTie qHuge).Total ∧
    (repoList rTie qHuge).Data ≠ [] ∧
    listSliceOk rTie qPanic = false :=
  ⟨by decide, by decide, by decide⟩

/-- Claim C2 (amended): with no sort keys given, `List` returns the records
ordered by creation timestamp descending; records with equal creation
timestamps stay in snapshot order — the code's default branch has no
identifier tie-break. -/
theorem default_listing_created_desc (r : BookRepo) (q : ListQuery)
    (h : q.SortBy = []) :
    (repoList r q).Data.Pairwise createdDesc := by
  have hsorted : (sortBooks q.SortBy (filteredBooks r q)).Pairwise
      createdDesc := by
    rw [h]
    unfold sortBooks
    simpa using isortBy_pairwise_created (filteredBooks r q)
  dsimp only [repoList]
  exact List.Pairwise.sublist
    ((List.take_sublist _ _).trans (List.drop_sublist _ _)) hsorted

/-- Witness for C2's amended ordering at a concrete store. -/
theorem default_listing_created_desc_witness :
    (repoList rTie qDefault).Data.Pairwise createdDesc :=
  default_listing_created_desc rTie qDefault rfl

/-- Counterexample to C2 as stated: two records with equal creation
timestamps come back in snapshot order `b2, b1`, not identifier-ascending
order, because the default sort branch compares only `CreatedAt`. -/
theorem default_listing_tie_not_id_ascending :
    repoCreate emptyRepo bTie2 = .ok (bTie2, rTieMid) ∧
    repoCreate rTieMid bTie1 = .ok (bTie1, rTie) ∧
    bTie1.CreatedAt = bTie2.CreatedAt ∧
    (repoList rTie qDefault).Data.map (fun b => b.ID) = ["b2", "b1"] ∧
    ¬ claimedDefaultOrder (repoList rTie qDefault).Data := by
  refine ⟨by decide, by decide, rfl, by decide, ?_⟩
  intro hord
  unfold claimedDefaultOrder at hord
  revert hord
  decide

/-! ### Claim theorems: service -/

/-- An input with no title and no enrichment request: a validation
violation. -/
def inNoTitle : CreateBookInput :=
  { ISBN := none, Title := none, Subtitle := none, PublishedYear := none,
    PageCount := none, CoverURL := none, Tags := [], Authors := [],
    Enrich := false, RequireEnrichment := false }

/-- An input requesting mandatory enrichment for ISBN `isbn1`. -/
def inRequired : CreateBookInput :=
  { ISBN := some "isbn1", Title := some "T", Subtitle := none,
    PublishedYear := none, PageCount := none, CoverURL := none,
    Tags := [], Authors := [], Enrich := true, RequireEnrichment := true }

/-- Claim C5: `CreateBook` fails with `Validation` iff the input violates a
validation rule — title required and non-empty unless both `Enrich` is
requested and an ISBN is supplied; page count, if given, at least 1;
published year, if given, within 1450..3000 — and on a validation failure
the store is left unchanged. -/
theorem createBook_validation_iff (newId : String) (now : Int)
    (fetch : Option EnrichedBook) (repo : BookRepo)
    (input : CreateBookInput) :
    ((createBook newId now fetch repo input).1 = .err .validation ↔
      validationViolation input = true) ∧
    (validationViolation input = true →
      (createBook newId now fetch repo input).2 = repo) := by
  refine ⟨⟨?_, ?_⟩, ?_⟩
  · intro h
    by_contra hv
    have hv2 : validationViolation input = false := by
      cases hvv : validationViolation input
      · rfl
      · exact absurd hvv hv
    exact createBook_not_validation newId now fetch repo input hv2 h
  · intro hv
    rw [createBook_guarded newId now fetch repo input hv]
  · intro hv
    rw [createBook_guarded newId now fetch repo input hv]

/-- Witness for C5: a title-less, enrichment-less input fails with
`Validation` and leaves the empty store empty. -/
theorem createBook_validation_iff_witness :
    (createBook "id1" 0 none emptyRepo inNoTitle).1 = .err .validation ∧
    (createBook "id1" 0 none emptyRepo inNoTitle).2 = emptyRepo :=
  ⟨(createBook_validation_iff "id1" 0 none emptyRepo inNoTitle).1.mpr
      (by decide),
    (createBook_validation_iff "id1" 0 none emptyRepo inNoTitle).2
      (by decide)⟩

/-- Claim C7: with `Enrich` and `RequireEnrichment` set, a present
non-empty ISBN, and an input passing the page/year guards (so the lookup is
actually reached), a failing lookup makes `CreateBook` return `Upstream`
with the store unchanged — nothing from this attempt can be found by later
reads. -/
theorem required_enrichment_failure_upstream (newId : String) (now : Int)
    (repo : BookRepo) (input : CreateBookInput) (s : String)
    (hE : input.Enrich = true) (hR : input.RequireEnrichment = true)
    (hI : input.ISBN = some s) (hs : s ≠ "")
    (hpc : pageCountInvalid input.PageCount = false)
    (hyr : yearInvalid input.PublishedYear = false) :
    createBook newId now none repo input = (.err .upstream, repo) := by
  unfold createBook
  rw [if_neg (by simp [hE, hI]), if_neg (by simp [hpc]),
    if_neg (by simp [hyr])]
  have hep : enrichPhase input none (buildBook newId now input) =
      .err .upstream := by
    unfold enrichPhase
    simp [hI, hE, hR, hs]
  simp [hep]

/-- Witness for C7 at a concrete input over the empty store. -/
theorem required_enrichment_failure_upstream_witness :
    createBook "id1" 0 none emptyRepo inRequired =
      (.err .upstream, emptyRepo) :=
  required_enrichment_failure_upstream "id1" 0 emptyRepo inRequired "isbn1"
    rfl rfl rfl (by decide) rfl rfl

/-- An input requesting optional enrichment for ISBN `isbn1`. -/
def inOptional : CreateBookInput :=
  { ISBN := some "isbn1", Title := some "T", Subtitle := none,
    PublishedYear := none, PageCount := none, CoverURL := none,
    Tags := [], Authors := [], Enrich := true, RequireEnrichment := false }

/-- Claim C8: with `Enrich` set, `RequireEnrichment` unset, a present
non-empty ISBN, an input passing the page/year guards, and no conflicting
identifier or ISBN in the store, a failing lookup still persists the record
exactly as constructed from the caller input, with enrichment status
`partial`, `attempted = true`, and the caller-supplied title retained. -/
theorem optional_enrichment_failure_partial (newId : String) (now : Int)
    (repo : BookRepo) (input : CreateBookInput) (s : String)
    (hE : input.Enrich = true) (hR : input.RequireEnrichment = false)
    (hI : input.ISBN = some s) (hs : s ≠ "")
    (hpc : pageCountInvalid input.PageCount = false)
    (hyr : yearInvalid input.PublishedYear = false)
    (hid : newId ≠ "") (hfresh : mapGet repo.byID newId = none)
    (hisbn : mapGet repo.byISBN (normalizeISBN s) = none) :
    ∃ bk r2, createBook newId now none repo input = (.ok bk, r2) ∧
      bk.ID = newId ∧ bk.ISBN = some s ∧
      bk.Title = valueOr input.Title "" ∧
      bk.Subtitle = input.Subtitle ∧
      bk.PublishedYear = input.PublishedYear ∧
      bk.PageCount = input.PageCount ∧
      bk.CoverURL = input.CoverURL ∧
      bk.Tags = input.Tags ∧ bk.Authors = input.Authors ∧
      bk.Enrichment =
        { Attempted := true, Source := "openlibrary",
          Status := .partialStatus, LookedUpISBN := s } ∧
      bk.CreatedAt = now ∧ bk.UpdatedAt = now ∧
      getByID r2 newId = .ok bk := by
  have hep : enrichPhase input none (buildBook newId now input) =
      .ok (setStatus (markAttempted (buildBook newId now input) s)
        .partialStatus) := by
    unfold enrichPhase
    simp [hI, hE, hR, hs]
  set bk := setStatus (markAttempted (buildBook newId now input) s)
    .partialStatus with hbk
  have hbkISBN : bk.ISBN = some s := by
    simp [hbk, setStatus, markAttempted, buildBook, hI]
  have hbkID : bk.ID = newId := by
    simp [hbk, setStatus, markAttempted, buildBook]
  have hpre : isbnPrecheckConflict repo bk = false := by
    unfold isbnPrecheckConflict
    simp only [hbkISBN]
    rw [if_pos (by simp [hs])]
    unfold getByISBN
    simp [hisbn]
  have hrc := repoCreate_ok_of repo bk (by simp [hbkID, hid])
    (by rw [hbkID]; exact hfresh)
    (by
      intro s2 hs2 _
      rw [hbkISBN] at hs2
      injection hs2 with h2
      rw [← h2]
      exact hisbn)
  refine ⟨bk,
    { byID := mapSet repo.byID bk.ID bk,
      byISBN :=
        match bk.ISBN with
        | some s2 =>
          if normalizeISBN s2 != "" then
            mapSet repo.byISBN (normalizeISBN s2) bk.ID
          else repo.byISBN
        | none => repo.byISBN },
    ?_, hbkID, hbkISBN, ?_, ?_, ?_, ?_, ?_, ?_, ?_, ?_, ?_, ?_, ?_⟩
  · unfold createBook
    rw [if_neg (by simp [hE, hI]), if_neg (by simp [hpc]),
      if_neg (by simp [hyr])]
    simp only [hep]
    rw [if_neg (by simp [hpre])]
    simp only [hrc]
  · simp [hbk, setStatus, markAttempted, buildBook]
  · simp [hbk, setStatus, markAttempted, buildBook]
  · simp [hbk, setStatus, markAttempted, buildBook]
  · simp [hbk, setStatus, markAttempted, buildBook]
  · simp [hbk, setStatus, markAttempted, buildBook]
  · simp [hbk, setStatus, markAttempted, buildBook]
  · simp [hbk, setStatus, markAttempted, buildBook]
  · simp [hbk, setStatus, markAttempted, buildBook]
  · simp [hbk, setStatus, markAttempted, buildBook]
  · simp [hbk, setStatus, markAttempted, buildBook]
  · unfold getByID
    rw [← hbkID]
    simp only [mapSet]
    rw [mapGet_append]
    rw [hbkID, hfresh]
    simp [mapGet, copyBook_eq]

/-- Witness for C8 at a concrete input over the empty store. -/
theorem optional_enrichment_failure_partial_witness :
    ∃ bk r2, createBook "id1" 0 none emptyRepo inOptional = (.ok bk, r2) ∧
      bk.ID = "id1" ∧ bk.ISBN = some "isbn1" ∧
      bk.Title = valueOr inOptional.Title "" ∧
      bk.Subtitle = inOptional.Subtitle ∧
      bk.PublishedYear = inOptional.PublishedYear ∧
      bk.PageCount = inOptional.PageCount ∧
      bk.CoverURL = inOptional.CoverURL ∧
      bk.Tags = inOptional.Tags ∧ bk.Authors = inOptional.Authors ∧
      bk.Enrichment =
        { Attempted := true, Source := "openlibrary",
          Status := .partialStatus, LookedUpISBN := "isbn1" } ∧
      bk.CreatedAt = 0 ∧ bk.UpdatedAt = 0 ∧
      getByID r2 "id1" = .ok bk :=
  optional_enrichment_failure_partial "id1" 0 emptyRepo inOptional "isbn1"
    rfl rfl rfl (by decide) rfl rfl (by decide) rfl rfl

/-- An input with `Enrich` set and a present-but-empty ISBN string. -/
def inEmptyIsbn : CreateBookInput :=
  { ISBN := some "", Title := none, Subtitle := none, PublishedYear := none,
    PageCount := none, CoverURL := none, Tags := [], Authors := [],
    Enrich := true, RequireEnrichment := false }

/-- Claim C10: with `Enrich` set and ISBN present but equal to the empty
string, the title requirement is waived (the guard checks only pointer
presence) yet the lookup is skipped entirely (its guard also needs a
non-empty string): absent other validation failures the call succeeds for
any lookup reply, persisting a record with empty title and enrichment
metadata still `attempted = false, status = not_requested`. -/
theorem enrich_empty_isbn_skips_lookup (newId : String) (now : Int)
    (fetch : Option EnrichedBook) (repo : BookRepo)
    (input : CreateBookInput)
    (hE : input.Enrich = true) (hI : input.ISBN = some "")
    (hT : titleMissing input.Title = true)
    (hpc : pageCountInvalid input.PageCount = false)
    (hyr : yearInvalid input.PublishedYear = false)
    (hid : newId ≠ "") (hfresh : mapGet repo.byID newId = none) :
    ∃ bk r2, createBook newId now fetch repo input = (.ok bk, r2) ∧
      bk.Title = "" ∧
      bk.Enrichment =
        { Attempted := false, Source := "", Status := .notRequested,
          LookedUpISBN := "" } ∧
      r2.byISBN = repo.byISBN ∧
      getByID r2 newId = .ok bk := by
  have hep : enrichPhase input fetch (buildBook newId now input) =
      .ok (buildBook newId now input) := by
    unfold enrichPhase
    simp [hI]
  set bk := buildBook newId now input with hbk
  have hbkISBN : bk.ISBN = some "" := by
    simp [hbk, buildBook, hI]
  have hbkID : bk.ID = newId := by
    simp [hbk, buildBook]
  have hpre : isbnPrecheckConflict repo bk = false := by
    unfold isbnPrecheckConflict
    simp [hbkISBN]
  have hrc := repoCreate_ok_of repo bk (by simp [hbkID, hid])
    (by rw [hbkID]; exact hfresh)
    (by
      intro s2 hs2 hne
      rw [hbkISBN] at hs2
      injection hs2 with h2
      exact absurd (h2 ▸ rfl : normalizeISBN s2 = "") hne)
  refine ⟨bk,
    { byID := mapSet repo.byID bk.ID bk,
      byISBN :=
        match bk.ISBN with
        | some s2 =>
          if normalizeISBN s2 != "" then
            mapSet repo.byISBN (normalizeISBN s2) bk.ID
          else repo.byISBN
        | none => repo.byISBN },
    ?_, ?_, ?_, ?_, ?_⟩
  · unfold createBook
    rw [if_neg (by simp [hE, hI]), if_neg (by simp [hpc]),
      if_neg (by simp [hyr])]
    simp only [hep]
    rw [if_neg (by simp [hpre])]
    simp only [hrc]
  · rcases hTo : input.Title with _ | t
    · simp [hbk, buildBook, valueOr, hTo]
    · have : t = "" := by
        rw [hTo] at hT
        simpa [titleMissing] using hT
      simp [hbk, buildBook, valueOr, hTo, this]
  · simp [hbk, buildBook]
  · rw [hbkISBN]
    have hn : normalizeISBN "" = "" := rfl
    simp [hn]
  · unfold getByID
    rw [← hbkID]
    simp only [mapSet]
    rw [mapGet_append]
    rw [hbkID, hfresh]
    simp [mapGet, copyBook_eq]

/-- An enrichment reply that supplies a title (C10 must ignore it). -/
def ebX : EnrichedBook :=
  { Title := some "X", Subtitle := none, PublishedYear := none,
    PageCount := none, CoverURL := none, Authors := [] }

/-- Witness for C10 at a concrete input over the empty store. -/
theorem enrich_empty_isbn_skips_lookup_witness :
    ∃ bk r2,
      createBook "id1" 0 (some ebX) emptyRepo inEmptyIsbn = (.ok bk, r2) ∧
      bk.Title = "" ∧
      bk.Enrichment =
        { Attempted := false, Source := "", Status := .notRequested,
          LookedUpISBN := "" } ∧
      r2.byISBN = emptyRepo.byISBN ∧
      getByID r2 "id1" = .ok bk :=
  enrich_empty_isbn_skips_lookup "id1" 0 (some ebX) emptyRepo inEmptyIsbn
    rfl rfl rfl rfl rfl (by decide) rfl

/-- An input with a caller-supplied title and optional enrichment. -/
def inFallback : CreateBookInput :=
  { ISBN := some "i2", Title := some "Fallback Title", Subtitle := none,
    PublishedYear := none, PageCount := none, CoverURL := none,
    Tags := [], Authors := [], Enrich := true, RequireEnrichment := false }

/-- An enrichment reply carrying a different non-empty title and values for
every field. -/
def ebRich : EnrichedBook :=
  { Title := some "Other Title", Subtitle := some "Sub",
    PublishedYear := some 2001, PageCount := some 321,
    CoverURL := some "u", Authors := ["A. Writer"] }

/-- Claim C6: the merge is caller-wins, fill-only-if-missing — each of
title, subtitle, published year, page count, cover URL, and authors is
taken from the enrichment result only when the corresponding field on the
record is empty/absent, and a successful enrichment inside `CreateBook`
sets status `ok` while never overwriting a caller-supplied non-empty
title. -/
theorem merge_caller_wins_fill_missing :
    (∀ (b : Book) (e : EnrichedBook),
      (b.Title ≠ "" → (merge b e).Title = b.Title) ∧
      (b.Title = "" → (merge b e).Title = valueOr e.Title "") ∧
      (b.Subtitle ≠ none → (merge b e).Subtitle = b.Subtitle) ∧
      (b.Subtitle = none → (merge b e).Subtitle = e.Subtitle) ∧
      (b.PublishedYear ≠ none →
        (merge b e).PublishedYear = b.PublishedYear) ∧
      (b.PublishedYear = none →
        (merge b e).PublishedYear = e.PublishedYear) ∧
      (b.PageCount ≠ none → (merge b e).PageCount = b.PageCount) ∧
      (b.PageCount = none → (merge b e).PageCount = e.PageCount) ∧
      (b.CoverURL ≠ none → (merge b e).CoverURL = b.CoverURL) ∧
      (b.CoverURL = none → (merge b e).CoverURL = e.CoverURL) ∧
      (b.Authors ≠ [] → (merge b e).Authors = b.Authors) ∧
      (b.Authors = [] → (merge b e).Authors = e.Authors) ∧
      (merge b e).Enrichment = b.Enrichment) ∧
    (∀ (newId : String) (now : Int) (e : EnrichedBook) (repo : BookRepo)
        (input : CreateBookInput) (s t : String) (bk : Book)
        (r2 : BookRepo),
      input.Enrich = true → input.ISBN = some s → s ≠ "" →
      input.Title = some t → t ≠ "" →
      createBook newId now (some e) repo input = (.ok bk, r2) →
      bk.Title = t ∧ bk.Enrichment.Status = .ok) := by
  constructor
  · intro b e
    refine ⟨?_, ?_, ?_, ?_, ?_, ?_, ?_, ?_, ?_, ?_, ?_, ?_, ?_⟩
    · intro h
      simp [merge, h]
    · intro h
      cases he : e.Title <;> simp [merge, h, he, valueOr]
    · intro h
      have : b.Subtitle.isNone = false := by
        cases hb : b.Subtitle
        · exact absurd hb h
        · rfl
      simp [merge, this]
    · intro h
      cases he : e.Subtitle <;> simp [merge, h, he]
    · intro h
      have : b.PublishedYear.isNone = false := by
        cases hb : b.PublishedYear
        · exact absurd hb h
        · rfl
      simp [merge, this]
    · intro h
      cases he : e.PublishedYear <;> simp [merge, h, he]
    · intro h
      have : b.PageCount.isNone = false := by
        cases hb : b.PageCount
        · exact absurd hb h
        · rfl
      simp [merge, this]
    · intro h
      cases he : e.PageCount <;> simp [merge, h, he]
    · intro h
      have : b.CoverURL.isNone = false := by
        cases hb : b.CoverURL
        · exact absurd hb h
        · rfl
      simp [merge, this]
    · intro h
      cases he : e.CoverURL <;> simp [merge, h, he]
    · intro h
      simp [merge, h]
    · intro h
      cases he : e.Authors <;> simp [merge, h, he]
    · simp [merge]
  · intro newId now e repo input s t bk r2 hE hI hs hT ht hcb
    by_cases g2 : (pageCountInvalid input.PageCount = true)
    · exfalso
      have : createBook newId now (some e) repo input =
          (.err .validation, repo) :=
        createBook_guarded newId now (some e) repo input
          (by simp [validationViolation, g2])
      rw [this] at hcb
      exact Res.noConfusion (congrArg Prod.fst hcb)
    · by_cases g3 : (yearInvalid input.PublishedYear = true)
      · exfalso
        have : createBook newId now (some e) repo input =
            (.err .validation, repo) :=
          createBook_guarded newId now (some e) repo input
            (by simp [validationViolation, g3])
        rw [this] at hcb
        exact Res.noConfusion (congrArg Prod.fst hcb)
      · unfold createBook at hcb
        rw [if_neg (by simp [hE, hI]), if_neg g2, if_neg g3] at hcb
        have hep : enrichPhase input (some e) (buildBook newId now input) =
            .ok (setStatus
              (merge (markAttempted (buildBook newId now input) s) e)
              .ok) := by
          unfold enrichPhase
          simp [hI, hE, hs]
        simp only [hep] at hcb
        by_cases hpre : (isbnPrecheckConflict repo
            (setStatus (merge (markAttempted (buildBook newId now input) s)
              e) .ok) = true)
        · rw [if_pos hpre] at hcb
          exact absurd (congrArg Prod.fst hcb) (by simp)
        · rw [if_neg hpre] at hcb
          rcases hrc : repoCreate repo
              (setStatus (merge (markAttempted (buildBook newId now input)
                s) e) .ok) with ⟨created, r3⟩ | e2
          · rw [hrc] at hcb
            have hcreated := (repoCreate_ok_cases _ _ _ _ hrc).1
            have hbk : bk = created := by
              have := congrArg Prod.fst hcb
              simpa using this.symm
            rw [hbk, hcreated]
            constructor
            · have hbt :
                  (markAttempted (buildBook newId now input) s).Title =
                    t := by
                simp [markAttempted, buildBook, hT, valueOr]
              simp [setStatus, merge, hbt, ht]
            · simp [setStatus]
          · rw [hrc] at hcb
            exact absurd (congrArg Prod.fst hcb) (by simp)

/-- The record C6's witness scenario persists. -/
def bkFallback : Book :=
  setStatus (merge (markAttempted (buildBook "id1" 0 inFallback) "i2")
    ebRich) .ok

/-- The store C6's witness scenario ends in. -/
def rFallback : BookRepo :=
  { byID := [("id1", bkFallback)], byISBN := [("i2", "id1")] }

/-- Witness for C6: `Fallback Title` survives a successful enrichment that
offers a different title, and status is `ok`. -/
theorem merge_caller_wins_fill_missing_witness :
    bkFallback.Title = "Fallback Title" ∧
    bkFallback.Enrichment.Status = .ok :=
  merge_caller_wins_fill_missing.2 "id1" 0 ebRich emptyRepo inFallback
    "i2" "Fallback Title" bkFallback rFallback rfl rfl (by decide) rfl
    (by decide) (by decide)

/-! ### Claim theorems: deletion -/

/-- A stored book carrying ISBN `97-8` (normalized key `978`). -/
def bDel : Book := mkBook "d1" (some "97-8") 3

def rDel : BookRepo :=
  { byID := [("d1", bDel)], byISBN := [("978", "d1")] }

def rDelAfter : BookRepo := { byID := [], byISBN := [] }

/-- Claim C9: `Delete(id)` fails with `NotFound` iff no record with that
identifier is stored; on success it removes exactly that record and (when
the record had an ISBN) the index entry of its normalized key, so that a
later `GetByID` and `GetByISBN` fail with `NotFound`, while every other
stored record and every other ISBN index entry is unchanged. -/
theorem delete_frame_conditions (r : BookRepo) (id : String) :
    (repoDelete r id = .err .notFound ↔ mapGet r.byID id = none) ∧
    (∀ b, mapGet r.byID id = some b →
      ∃ r2, repoDelete r id = .ok r2 ∧
        getByID r2 id = .err .notFound ∧
        (∀ s, b.ISBN = some s → getByISBN r2 s = .err .notFound) ∧
        (∀ id2, id2 ≠ id → mapGet r2.byID id2 = mapGet r.byID id2) ∧
        (b.ISBN = none → r2.byISBN = r.byISBN) ∧
        (∀ s k, b.ISBN = some s → k ≠ normalizeISBN s →
          mapGet r2.byISBN k = mapGet r.byISBN k)) := by
  constructor
  · constructor
    · intro h
      unfold repoDelete at h
      cases hm : mapGet r.byID id
      · rfl
      · simp only [hm] at h
        exact Res.noConfusion h
    · intro h
      unfold repoDelete
      simp [h]
  · intro b hb
    refine ⟨
      { byID := mapDel r.byID id,
        byISBN :=
          match b.ISBN with
          | some s => mapDel r.byISBN (normalizeISBN s)
          | none => r.byISBN },
      ?_, ?_, ?_, ?_, ?_, ?_⟩
    · unfold repoDelete
      simp only [hb]
    · unfold getByID
      rw [mapGet_del]
      simp
    · intro s hs
      unfold getByISBN
      simp only [hs]
      rw [mapGet_del]
      simp
    · intro id2 hne
      rw [mapGet_del]
      simp [hne]
    · intro hnone
      simp only [hnone]
    · intro s k hs hkne
      simp only [hs]
      rw [mapGet_del]
      simp [hkne]

/-- Witness for C9 at a concrete one-record store. -/
theorem delete_frame_conditions_witness :
    repoDelete rDel "d1" = .ok rDelAfter ∧
    getByID rDelAfter "d1" = .err .notFound ∧
    getByISBN rDelAfter "97-8" = .err .notFound := by
  obtain ⟨r2, h1, h2, h3, _, _, _⟩ :=
    (delete_frame_conditions rDel "d1").2 bDel (by decide)
  have hcalc : repoDelete rDel "d1" = .ok rDelAfter := by decide
  rw [hcalc] at h1
  injection h1 with hr
  subst hr
  exact ⟨hcalc, h2, h3 "97-8" rfl⟩

/-! ### The ISBN-uniqueness invariant (claim C1) -/

/-- Every ISBN index entry has a non-empty key and points at a stored
record whose ISBN normalizes to exactly that key. -/
def invIdx (r : BookRepo) : Bool :=
  r.byISBN.all (fun p =>
    (!(p.1 == "")) &&
    match mapGet r.byID p.2 with
    | some b =>
      match b.ISBN with
      | some s => normalizeISBN s == p.1
      | none => false
    | none => false)

/-- Every stored record with an ISBN whose normalized key is non-empty is
indexed under that key. -/
def invRec (r : BookRepo) : Bool :=
  r.byID.all (fun p =>
    match p.2.ISBN with
    | some s =>
      (normalizeISBN s == "") ||
      (mapGet r.byISBN (normalizeISBN s) == some p.1)
    | none => true)

/-- The store invariant maintained by `Create` and `Delete`. -/
def repoInv (r : BookRepo) : Bool :=
  keysDistinct r.byID && invIdx r && invRec r

/-- States reachable from the fresh store by `Create` and `Delete`. -/
inductive Reachable : BookRepo → Prop where
  | base : Reachable emptyRepo
  | create (r : BookRepo) (b c : Book) (r2 : BookRepo) :
      Reachable r → repoCreate r b = .ok (c, r2) → Reachable r2
  | del (r : BookRepo) (id : String) (r2 : BookRepo) :
      Reachable r → repoDelete r id = .ok r2 → Reachable r2

/-! ### Map lemmas for the invariant -/

theorem mapGet_some_mem {α : Type} (m : List (String × α)) (q : String)
    (v : α) (h : mapGet m q = some v) : (q, v) ∈ m := by
  induction m with
  | nil => exact absurd h (by simp [mapGet])
  | cons p t ih =>
    obtain ⟨k, w⟩ := p
    by_cases hk : (k == q) = true
    · rw [mapGet, if_pos hk] at h
      injection h with hv
      subst hv
      have : k = q := by simpa using hk
      subst this
      exact List.mem_cons_self _ _
    · rw [mapGet, if_neg hk] at h
      exact List.mem_cons_of_mem _ (ih h)

theorem mem_key_mapGet {α : Type} (m : List (String × α))
    (p : String × α) (h : p ∈ m) : mapGet m p.1 ≠ none := by
  induction m with
  | nil => cases h
  | cons hd t ih =>
    obtain ⟨k, w⟩ := hd
    rcases List.mem_cons.mp h with rfl | hmem
    · simp [mapGet]
    · by_cases hk : (k == p.1) = true
      · simp [mapGet, hk]
      · rw [mapGet, if_neg hk]
        exact ih hmem

theorem keysDistinct_mem_inj {α : Type} (m : List (String × α))
    (hd : keysDistinct m = true) (p1 p2 : String × α)
    (h1 : p1 ∈ m) (h2 : p2 ∈ m) (hk : p1.1 = p2.1) : p1 = p2 := by
  induction m with
  | nil => cases h1
  | cons hd0 t ih =>
    obtain ⟨k, w⟩ := hd0
    rw [keysDistinct, Bool.and_eq_true] at hd
    have hdt : keysDistinct t = true := hd.2
    have hnone : mapGet t k = none := by
      have := hd.1
      cases hm : mapGet t k
      · rfl
      · rw [hm] at this
        simp at this
    rcases List.mem_cons.mp h1 with rfl | hm1
    · rcases List.mem_cons.mp h2 with rfl | hm2
      · rfl
      · exfalso
        have := mem_key_mapGet t p2 hm2
        rw [← hk] at this
        exact this hnone
    · rcases List.mem_cons.mp h2 with rfl | hm2
      · exfalso
        have := mem_key_mapGet t p1 hm1
        rw [hk] at this
        exact this hnone
      · exact ih hdt hm1 hm2

theorem keysDistinct_append {α : Type} (m : List (String × α)) (k : String)
    (v : α) (hd : keysDistinct m = true) (habs : mapGet m k = none) :
    keysDistinct (m ++ [(k, v)]) = true := by
  induction m with
  | nil => simp [keysDistinct, mapGet]
  | cons p t ih =>
    obtain ⟨k2, v2⟩ := p
    rw [keysDistinct, Bool.and_eq_true] at hd
    obtain ⟨hd1, hd2⟩ := hd
    have hk2 : (k2 == k) = false := by
      cases hkk : (k2 == k)
      · rfl
      · rw [mapGet, if_pos hkk] at habs
        exact Option.noConfusion habs
    have habs2 : mapGet t k = none := by
      rw [mapGet, if_neg (by simp [hk2])] at habs
      exact habs
    rw [List.cons_append, keysDistinct, Bool.and_eq_true]
    refine ⟨?_, ih hd2 habs2⟩
    rw [mapGet_append]
    have hd1n : mapGet t k2 = none := by
      cases hm : mapGet t k2
      · rfl
      · rw [hm] at hd1
        simp at hd1
    rw [hd1n]
    have : (k == k2) = false := by
      cases hkk : (k == k2)
      · rfl
      · exfalso
        have hkv : k2 = k := (beq_iff_eq.mp hkk).symm
        rw [hkv] at hk2
        simp at hk2
    simp [mapGet, this]

theorem keysDistinct_del {α : Type} (m : List (String × α)) (k : String)
    (hd : keysDistinct m = true) : keysDistinct (mapDel m k) = true := by
  induction m with
  | nil => simp [mapDel, keysDistinct]
  | cons p t ih =>
    obtain ⟨k2, v2⟩ := p
    rw [keysDistinct, Bool.and_eq_true] at hd
    obtain ⟨hd1, hd2⟩ := hd
    by_cases hk : (k2 == k) = true
    · rw [mapDel, if_pos hk]
      exact ih hd2
    · rw [mapDel, if_neg hk, keysDistinct, Bool.and_eq_true]
      refine ⟨?_, ih hd2⟩
      rw [mapGet_del]
      have hd1n : mapGet t k2 = none := by
        cases hm : mapGet t k2
        · rfl
        · rw [hm] at hd1
          simp at hd1
      simp [hd1n]

theorem mem_mapDel {α : Type} (m : List (String × α)) (k : String)
    (p : String × α) :
    p ∈ mapDel m k ↔ p ∈ m ∧ (p.1 == k) = false := by
  induction m with
  | nil => simp [mapDel]
  | cons hd t ih =>
    obtain ⟨k2, v2⟩ := hd
    by_cases hk : (k2 == k) = true
    · rw [mapDel, if_pos hk]
      rw [ih]
      constructor
      · rintro ⟨hm, hf⟩
        exact ⟨List.mem_cons_of_mem _ hm, hf⟩
      · rintro ⟨hm, hf⟩
        rcases List.mem_cons.mp hm with rfl | hm2
        · rw [hk] at hf
          exact absurd hf (by simp)
        · exact ⟨hm2, hf⟩
    · rw [mapDel, if_neg hk]
      constructor
      · intro hm
        rcases List.mem_cons.mp hm with rfl | hm2
        · exact ⟨List.mem_cons_self _ _, by simpa using hk⟩
        · obtain ⟨ha, hb⟩ := ih.mp hm2
          exact ⟨List.mem_cons_of_mem _ ha, hb⟩
      · rintro ⟨hm, hf⟩
        rcases List.mem_cons.mp hm with rfl | hm2
        · exact List.mem_cons_self _ _
        · exact List.mem_cons_of_mem _ (ih.mpr ⟨hm2, hf⟩)

theorem mapGet_mapSet_of_some {α : Type} (m : List (String × α))
    (k q : String) (v w : α) (h : mapGet m q = some w) :
    mapGet (mapSet m k v) q = some w := by
  unfold mapSet
  rw [mapGet_append, h]

theorem mapGet_mapSet_self {α : Type} (m : List (String × α))
    (k : String) (v : α) (h : mapGet m k = none) :
    mapGet (mapSet m k v) k = some v := by
  unfold mapSet
  rw [mapGet_append, h]
  simp [mapGet]

/-- `Create` preserves the store invariant. -/
theorem repoInv_create (r : BookRepo) (b c : Book) (r2 : BookRepo)
    (hinv : repoInv r = true) (h : repoCreate r b = .ok (c, r2)) :
    repoInv r2 = true := by
  obtain ⟨hc, hidne, hfresh, hbyID, hdisj⟩ := repoCreate_ok_cases r b c r2 h
  unfold repoInv at hinv ⊢
  rw [Bool.and_eq_true, Bool.and_eq_true] at hinv
  obtain ⟨⟨hkd, hidx⟩, hrec⟩ := hinv
  unfold invIdx at hidx
  unfold invRec at hrec
  rw [List.all_eq_true] at hidx hrec
  rw [Bool.and_eq_true, Bool.and_eq_true]
  unfold invIdx invRec
  have htrans : ∀ p ∈ r.byISBN,
      ((!(p.1 == "")) &&
        match mapGet r2.byID p.2 with
        | some b2 =>
          match b2.ISBN with
          | some s2 => normalizeISBN s2 == p.1
          | none => false
        | none => false) = true := by
    intro p hp
    have hold := hidx p hp
    rw [Bool.and_eq_true] at hold
    obtain ⟨hne, hmatch⟩ := hold
    cases hm : mapGet r.byID p.2 with
    | none =>
      rw [hm] at hmatch
      exact absurd hmatch (by simp)
    | some bp =>
      rw [hm] at hmatch
      have hm2 : mapGet r2.byID p.2 = some bp := by
        rw [hbyID]
        exact mapGet_mapSet_of_some _ _ _ _ _ hm
      rw [Bool.and_eq_true]
      refine ⟨hne, ?_⟩
      rw [hm2]
      exact hmatch
  refine ⟨⟨?_, ?_⟩, ?_⟩
  · rw [hbyID]
    exact keysDistinct_append r.byID b.ID b hkd hfresh
  · rw [List.all_eq_true]
    intro p hp
    rcases hdisj with ⟨s, hbs, hsne, habs, hbyISBN⟩ | ⟨hbyISBN, _⟩
    · rw [hbyISBN] at hp
      unfold mapSet at hp
      rcases List.mem_append.mp hp with hpold | hpnew
      · exact htrans p hpold
      · have hpn : p = (normalizeISBN s, b.ID) := by simpa using hpnew
        subst hpn
        dsimp only
        have hm2 : mapGet r2.byID b.ID = some b := by
          rw [hbyID]
          exact mapGet_mapSet_self _ _ _ hfresh
        simp [hsne, hm2, hbs]
    · rw [hbyISBN] at hp
      exact htrans p hp
  · rw [List.all_eq_true]
    intro p hp
    rw [hbyID] at hp
    unfold mapSet at hp
    rcases List.mem_append.mp hp with hpold | hpnew
    · have hold := hrec p hpold
      cases hps : p.2.ISBN with
      | none => simp [hps]
      | some sp =>
        simp only [hps] at hold
        simp only [hps]
        rw [Bool.or_eq_true] at hold ⊢
        rcases hold with hold | hold
        · exact Or.inl hold
        · right
          have holde : mapGet r.byISBN (normalizeISBN sp) = some p.1 := by
            simpa using hold
          rcases hdisj with ⟨s, hbs, hsne, habs, hbyISBN⟩ | ⟨hbyISBN, _⟩
          · rw [hbyISBN]
            have hkeep := mapGet_mapSet_of_some r.byISBN (normalizeISBN s)
              (normalizeISBN sp) b.ID p.1 holde
            simp [hkeep]
          · rw [hbyISBN]
            simp [holde]
    · have hpn : p = (b.ID, b) := by simpa using hpnew
      subst hpn
      dsimp only
      rcases hdisj with ⟨s, hbs, hsne, habs, hbyISBN⟩ | ⟨hbyISBN, hcase⟩
      · simp only [hbs]
        rw [Bool.or_eq_true]
        right
        rw [hbyISBN]
        have hself := mapGet_mapSet_self r.byISBN (normalizeISBN s) b.ID habs
        simp [hself]
      · rcases hcase with hno | ⟨s, hbs, hkey⟩
        · simp [hno]
        · simp only [hbs]
          rw [Bool.or_eq_true]
          left
          simp [hkey]

/-- `Delete` preserves the store invariant. -/
theorem repoInv_delete (r : BookRepo) (id : String) (r2 : BookRepo)
    (hinv : repoInv r = true) (h : repoDelete r id = .ok r2) :
    repoInv r2 = true := by
  unfold repoDelete at h
  cases hm : mapGet r.byID id with
  | none =>
    simp only [hm] at h
    exact Res.noConfusion h
  | some b =>
    simp only [hm] at h
    injection h with hr2
    subst hr2
    unfold repoInv at hinv ⊢
    rw [Bool.and_eq_true, Bool.and_eq_true] at hinv
    obtain ⟨⟨hkd, hidx⟩, hrec⟩ := hinv
    unfold invIdx at hidx
    unfold invRec at hrec
    rw [List.all_eq_true] at hidx hrec
    rw [Bool.and_eq_true, Bool.and_eq_true]
    unfold invIdx invRec
    have hmemb : (id, b) ∈ r.byID := mapGet_some_mem r.byID id b hm
    refine ⟨⟨?_, ?_⟩, ?_⟩
    · exact keysDistinct_del r.byID id hkd
    · rw [List.all_eq_true]
      intro p hp
      dsimp only at hp ⊢
      -- the entries of the new index are old entries (cases on the
      -- deleted record's ISBN)
      have hcases : p ∈ r.byISBN ∧
          (∀ s, b.ISBN = some s → (p.1 == normalizeISBN s) = false) := by
        rcases hbs : b.ISBN with _ | s
        · simp only [hbs] at hp
          refine ⟨hp, ?_⟩
          intro s2 hs2
          exact Option.noConfusion hs2
        · simp only [hbs] at hp
          obtain ⟨hpm, hpf⟩ := (mem_mapDel r.byISBN (normalizeISBN s) p).mp hp
          refine ⟨hpm, ?_⟩
          intro s2 hs2
          injection hs2 with hss
          rw [← hss]
          exact hpf
      obtain ⟨hpold, hpkey⟩ := hcases
      have hold := hidx p hpold
      rw [Bool.and_eq_true] at hold
      obtain ⟨hne, hmatch⟩ := hold
      cases hmp : mapGet r.byID p.2 with
      | none =>
        rw [hmp] at hmatch
        exact absurd hmatch (by simp)
      | some bp =>
        simp only [hmp] at hmatch
        -- the entry cannot point at the deleted identifier
        have hpne : (p.2 == id) = false := by
          cases hpq : (p.2 == id)
          · rfl
          · exfalso
            have hpid : p.2 = id := by simpa using hpq
            rw [hpid, hm] at hmp
            injection hmp with hbp
            subst hbp
            rcases hbs : b.ISBN with _ | s
            · simp only [hbs] at hmatch
              exact Bool.noConfusion hmatch
            · simp only [hbs] at hmatch
              have hsp : normalizeISBN s = p.1 := by simpa using hmatch
              have hff := hpkey s hbs
              rw [← hsp] at hff
              simp at hff
        rw [Bool.and_eq_true]
        refine ⟨hne, ?_⟩
        rw [mapGet_del, if_neg (show ¬((p.2 == id) = true) by simp [hpne])]
        simp only [hmp]
        exact hmatch
    · rw [List.all_eq_true]
      intro p hp
      dsimp only at hp ⊢
      obtain ⟨hpm, hpf⟩ := (mem_mapDel r.byID id p).mp hp
      have hold := hrec p hpm
      cases hps : p.2.ISBN with
      | none => simp [hps]
      | some sp =>
        simp only [hps] at hold
        simp only [hps]
        rw [Bool.or_eq_true] at hold ⊢
        rcases hold with hold | hold
        · exact Or.inl hold
        · have holde : mapGet r.byISBN (normalizeISBN sp) = some p.1 := by
            simpa using hold
          rcases hbs : b.ISBN with _ | s
          · simp only [hbs]
            right
            simp [holde]
          · simp only [hbs]
            by_cases hkeq : normalizeISBN sp = normalizeISBN s
            · -- the deleted record shares the key: impossible unless the
              -- key is empty
              have holdb := hrec (id, b) hmemb
              simp only [hbs] at holdb
              rw [Bool.or_eq_true] at holdb
              rcases holdb with holdb | holdb
              · left
                rw [hkeq]
                exact holdb
              · exfalso
                have : mapGet r.byISBN (normalizeISBN s) = some id := by
                  simpa using holdb
                rw [← hkeq, holde] at this
                injection this with hpid
                rw [hpid] at hpf
                simp at hpf
            · right
              rw [mapGet_del,
                if_neg (show ¬((normalizeISBN sp == normalizeISBN s) = true)
                  by simp [hkeq])]
              simp [holde]

/-- Every reachable store satisfies the invariant. -/
theorem reachable_inv (r : BookRepo) (h : Reachable r) :
    repoInv r = true := by
  induction h with
  | base => rfl
  | create r b c r2 _ hstep ih => exact repoInv_create r b c r2 ih hstep
  | del r id r2 _ hstep ih => exact repoInv_delete r id r2 ih hstep

/-- Concrete books for C1: two spellings of one ISBN. -/
def bIsbnA : Book := mkBook "a1" (some "978-1") 1

def bIsbnB : Book := mkBook "a2" (some "9781") 1

def rIsbnA : BookRepo :=
  { byID := [("a1", bIsbnA)], byISBN := [("9781", "a1")] }

/-- Concrete books for C1's counterexample: ISBNs that normalize to the
empty string. -/
def bDash : Book := mkBook "e1" (some "-") 1

def bSpace : Book := mkBook "e2" (some " ") 1

def rDash : BookRepo := { byID := [("e1", bDash)], byISBN := [] }

def rBoth : BookRepo :=
  { byID := [("e1", bDash), ("e2", bSpace)], byISBN := [] }

/-- Claim C1 (amended): for every pair of ISBN strings that normalize to
the same non-empty string, creating a record with the first and then
another with the second fails with `Conflict`; a record whose ISBN is
absent never touches the uniqueness index; and in every store state
reachable by `Create`/`Delete` at most one stored record exists per
non-empty normalized ISBN key.  (ISBNs normalizing to the empty string are
exempt: they are never indexed.) -/
theorem isbn_uniqueness_nonempty_key :
    (∀ (r r2 : BookRepo) (b1 b2 c : Book) (a a2 : String),
      b1.ISBN = some a → b2.ISBN = some a2 →
      normalizeISBN a = normalizeISBN a2 → normalizeISBN a ≠ "" →
      repoCreate r b1 = .ok (c, r2) →
      repoCreate r2 b2 = .err .conflict) ∧
    (∀ (r : BookRepo) (b c : Book) (r2 : BookRepo),
      b.ISBN = none → repoCreate r b = .ok (c, r2) →
      r2.byISBN = r.byISBN) ∧
    (∀ r : BookRepo, Reachable r →
      ∀ p1 ∈ r.byID, ∀ p2 ∈ r.byID, ∀ s1 s2 : String,
        p1.2.ISBN = some s1 → p2.2.ISBN = some s2 →
        normalizeISBN s1 = normalizeISBN s2 → normalizeISBN s1 ≠ "" →
        p1 = p2) := by
  refine ⟨?_, ?_, ?_⟩
  · intro r r2 b1 b2 c a a2 h1 h2 heq hne hcr
    obtain ⟨hc, hid, hfresh, hbyID, hdisj⟩ :=
      repoCreate_ok_cases r b1 c r2 hcr
    rcases hdisj with ⟨s, hbs, hsne, habs, hbyISBN⟩ | ⟨hbyISBN, hcase⟩
    · rw [h1] at hbs
      injection hbs with hsa
      subst hsa
      unfold repoCreate
      by_cases hg1 : ((b2.ID == "") = true)
      · rw [if_pos hg1]
      · rw [if_neg hg1]
        by_cases hg2 : ((mapGet r2.byID b2.ID).isSome = true)
        · rw [if_pos hg2]
        · rw [if_neg hg2]
          simp only [h2]
          rw [if_pos (show (normalizeISBN a2 != "") = true by
            rw [← heq]; simpa using hne)]
          have hsome : (mapGet r2.byISBN (normalizeISBN a2)).isSome =
              true := by
            rw [← heq, hbyISBN]
            unfold mapSet
            rw [mapGet_append]
            cases hw : mapGet r.byISBN (normalizeISBN a)
            · simp [mapGet]
            · simp
          rw [if_pos hsome]
    · rcases hcase with hno | ⟨s, hbs, hkey⟩
      · rw [h1] at hno
        exact Option.noConfusion hno
      · rw [h1] at hbs
        injection hbs with hsa
        rw [← hsa] at hkey
        exact absurd hkey hne
  · intro r b c r2 hnone hcr
    obtain ⟨_, _, _, _, hdisj⟩ := repoCreate_ok_cases r b c r2 hcr
    rcases hdisj with ⟨s, hbs, _, _, _⟩ | ⟨hbyISBN, _⟩
    · rw [hnone] at hbs
      exact Option.noConfusion hbs
    · exact hbyISBN
  · intro r hr p1 hp1 p2 hp2 s1 s2 hs1 hs2 heq hne
    have hinv := reachable_inv r hr
    unfold repoInv at hinv
    rw [Bool.and_eq_true, Bool.and_eq_true] at hinv
    obtain ⟨⟨hkd, _⟩, hrec⟩ := hinv
    unfold invRec at hrec
    rw [List.all_eq_true] at hrec
    have hq1 := hrec p1 hp1
    have hq2 := hrec p2 hp2
    simp only [hs1] at hq1
    simp only [hs2] at hq2
    rw [Bool.or_eq_true] at hq1 hq2
    rcases hq1 with hq1 | hq1
    · exact absurd (by simpa using hq1) hne
    · rcases hq2 with hq2 | hq2
      · rw [← heq] at hq2
        exact absurd (by simpa using hq2) hne
      · have e1 : mapGet r.byISBN (normalizeISBN s1) = some p1.1 := by
          simpa using hq1
        have e2 : mapGet r.byISBN (normalizeISBN s2) = some p2.1 := by
          simpa using hq2
        rw [← heq, e1] at e2
        injection e2 with hk
        exact keysDistinct_mem_inj r.byID hkd p1 p2 hp1 hp2 hk

/-- Witness for C1 (amended): `978-1` then `9781` collide. -/
theorem isbn_uniqueness_nonempty_key_witness :
    repoCreate rIsbnA bIsbnB = .err .conflict :=
  isbn_uniqueness_nonempty_key.1 emptyRepo rIsbnA bIsbnA bIsbnB bIsbnA
    "978-1" "9781" rfl rfl (by decide) (by decide) (by decide)

/-- Counterexample to C1 as stated: the ISBN strings `-` and ` ` normalize
to the same (empty) string, yet creating one record with each succeeds —
no `Conflict` — because an empty normalized key is never indexed. -/
theorem isbn_empty_key_no_conflict :
    normalizeISBN "-" = normalizeISBN " " ∧
    repoCreate emptyRepo bDash = .ok (bDash, rDash) ∧
    repoCreate rDash bSpace = .ok (bSpace, rBoth) ∧
    repoCreate rDash bSpace ≠ .err .conflict := by
  refine ⟨by decide, by decide, by decide, ?_⟩
  intro hcontra
  revert hcontra
  decide

end BookMgr
